import Mathlib

/-!
Shallow embedding of the award-identifier matching and reconciliation core
(src/utils/award_id_matcher.py and src/reconcile_grants_db.py) together with
theorems settling the specification claims about it.

Modelling conventions:
* a Python string is a `List Char` (`PyStr`); an optional argument that may be
  Python `None` is an `Option PyStr`;
* Python floats are modelled as exact rationals (`ℚ`); every arithmetic value
  produced by the matcher is a small rational, so this preserves all
  comparisons exactly;
* a Python division whose denominator is not locally guarded against zero by
  the source is modelled as an `Option`-valued step (`none` models a raised
  `ZeroDivisionError`); divisions whose guard is syntactically present in the
  source are modelled with total rational division;
* `unicodedata.normalize('NFKD', s).encode('ascii','ignore')` is modelled per
  character: ASCII characters (which have no compatibility decomposition) map
  to themselves, a table covers common Latin-1 letters with diacritics, and
  all remaining non-ASCII characters are dropped; the model keeps the one
  property all theorems rely on, namely that the result is pure ASCII;
* `difflib.SequenceMatcher` (used by `calculate_similarity_ratio`) is embedded
  following CPython's difflib: `b2j` index, junk-free `find_longest_match`
  with greedy tie-breaking, the recursive block decomposition of
  `get_matching_blocks`, and `ratio = 2*M/T`.
-/

/-- Python string model: a list of Unicode characters. -/
abbrev PyStr := List Char

/-- ASCII decimal digit (`0`-`9`). -/
def isDigitChar (c : Char) : Bool := 48 ≤ c.toNat && c.toNat ≤ 57

/-- The regex class `[A-Za-z0-9]` used by `normalize_award_id`. -/
def isAsciiAlnum (c : Char) : Bool :=
  isDigitChar c || (65 ≤ c.toNat && c.toNat ≤ 90) || (97 ≤ c.toNat && c.toNat ≤ 122)

/-- Python `str.strip` whitespace (ASCII whitespace; the identifiers the
matcher handles contain no exotic Unicode spaces). -/
def isSpaceChar (c : Char) : Bool :=
  c = ' ' || c = '\t' || c = '\n' || c = '\r' || c.toNat = 11 || c.toNat = 12

/-- Models `unicodedata.normalize('NFKD', ·)` followed by
`.encode('ascii','ignore').decode('ascii')`, one character at a time: an ASCII
character has no compatibility decomposition and is kept unchanged; common
Latin letters with diacritics decompose into their ASCII base letter (the
combining marks being non-ASCII are dropped); every other non-ASCII character
contributes nothing. All outputs are ASCII by construction, matching the
`encode('ascii','ignore')` step. -/
def nfkdAsciiChar (c : Char) : List Char :=
  if c.toNat < 128 then [c]
  else if c ∈ ['á', 'à', 'â', 'ä', 'ã', 'å'] then ['a']
  else if c ∈ ['é', 'è', 'ê', 'ë'] then ['e']
  else if c ∈ ['í', 'ì', 'î', 'ï'] then ['i']
  else if c ∈ ['ó', 'ò', 'ô', 'ö', 'õ'] then ['o']
  else if c ∈ ['ú', 'ù', 'û', 'ü'] then ['u']
  else if c ∈ ['ñ'] then ['n']
  else if c ∈ ['ç'] then ['c']
  else []

/-- `normalize_award_id` (src/utils/award_id_matcher.py, lines 6-14): falsy
input (absent or empty) yields the empty string; otherwise NFKD-decompose,
drop non-ASCII, remove every character outside `[A-Za-z0-9]`, and uppercase. -/
def normalize_award_id (award_id : Option PyStr) : PyStr :=
  match award_id with
  | none => []
  | some s =>
    if s = [] then []
    else ((s.flatMap nfkdAsciiChar).filter isAsciiAlnum).map Char.toUpper

/-- Python `str.strip()`: remove leading and trailing whitespace. -/
def pyStrip (s : PyStr) : PyStr :=
  ((s.dropWhile isSpaceChar).reverse.dropWhile isSpaceChar).reverse

/-- The delimiter class `[-_./\s]` that `extract_segments` splits on. -/
def isDelimChar (c : Char) : Bool :=
  c = '-' || c = '_' || c = '.' || c = '/' || isSpaceChar c

/-- Split a string into the maximal runs of non-delimiter characters
(`re.split(r'[-_./\s]+', ·)` followed by discarding empty tokens). -/
def splitDelims : PyStr → List PyStr
  | [] => []
  | c :: cs =>
    if isDelimChar c then splitDelims cs
    else
      match splitDelims cs with
      | [] => [[c]]
      | t :: ts => if isDelimChar (cs.headD ' ') then [c] :: t :: ts else (c :: t) :: ts

/-- The four dash variants `extract_segments` rewrites to an ASCII hyphen:
Unicode hyphen, en dash, em dash, minus sign. -/
def isDashVariant (c : Char) : Bool :=
  c = '‐' || c = '–' || c = '—' || c = '−'

/-- `extract_segments` (src/utils/award_id_matcher.py, lines 17-30): falsy
input yields no segments; otherwise replace the four dash variants with `-`,
strip diacritics to ASCII, trim, split on runs of `[-_./\s]`, drop empty
tokens, and uppercase each token. -/
def extract_segments (award_id : Option PyStr) : List PyStr :=
  match award_id with
  | none => []
  | some s =>
    if s = [] then []
    else
      let cleaned := s.map fun c => if isDashVariant c then '-' else c
      let ascii := cleaned.flatMap nfkdAsciiChar
      (splitDelims (pyStrip ascii)).map (List.map Char.toUpper)

/-- Python `str.isdigit` on the ASCII strings the matcher produces: nonempty
and consisting solely of decimal digits. -/
def pyIsdigit (s : PyStr) : Bool := !s.isEmpty && s.all isDigitChar

/-- Python `int(·)` on a string of decimal digits. -/
def pyInt (s : PyStr) : ℕ := s.foldl (fun a c => 10 * a + (c.toNat - 48)) 0

/-- Python `str.lstrip('0')`. -/
def lstripZeros (s : PyStr) : PyStr := s.dropWhile (· = '0')

/-- `re.findall(r'\d+', ·)`: the maximal runs of decimal digits, in order. -/
def digitRuns : PyStr → List PyStr
  | [] => []
  | c :: cs =>
    if isDigitChar c then
      match digitRuns cs with
      | [] => [[c]]
      | t :: ts => if isDigitChar (cs.headD ' ') then (c :: t) :: ts else [c] :: t :: ts
    else digitRuns cs

/-- `re.sub(r'\d', '', ·)`: remove every decimal digit. -/
def dropDigits (s : PyStr) : PyStr := s.filter fun c => !isDigitChar c

/-- Python `in` on strings: contiguous-substring containment, decidably. -/
def pyContains (hay needle : PyStr) : Bool :=
  decide (needle <:+: hay)

/-- `are_segments_compatible` (src/utils/award_id_matcher.py, lines 33-84),
rule for rule: exact equality; both numeric (equal integers, equal after
stripping leading zeros, or the 4-digit/2-digit year-suffix rule, else
incompatible); numeric-vs-non-numeric incompatible; shared prefix with
pairwise equal embedded digit runs; identical alphabetic cores guarded by the
first embedded digit runs; containment. -/
def are_segments_compatible (seg1 seg2 : PyStr) : Bool :=
  if seg1 = seg2 then true
  else if pyIsdigit seg1 && pyIsdigit seg2 then
    if pyInt seg1 = pyInt seg2 then true
    else if lstripZeros seg1 = lstripZeros seg2 then true
    else if seg1.length = 4 && seg2.length = 2 then
      seg2.isSuffixOf seg1
    else if seg2.length = 4 && seg1.length = 2 then
      seg1.isSuffixOf seg2
    else false
  else if pyIsdigit seg1 ≠ pyIsdigit seg2 then false
  else
    let startRule :=
      if seg2.isPrefixOf seg1 || seg1.isPrefixOf seg2 then
        let n1 := digitRuns seg1
        let n2 := digitRuns seg2
        !n1.isEmpty && !n2.isEmpty &&
          ((n1.zip n2).all fun p => pyInt p.1 = pyInt p.2)
      else false
    if startRule then true
    else if dropDigits seg1 = dropDigits seg2 then
      let n1 := digitRuns seg1
      let n2 := digitRuns seg2
      if !n1.isEmpty && !n2.isEmpty then
        if n1.headD [] ≠ n2.headD [] && pyInt (n1.headD []) ≠ pyInt (n2.headD []) then
          false
        else true
      else true
    else if pyContains seg2 seg1 || pyContains seg1 seg2 then true
    else false

/-- The aligned-segment loop of `structured_match` (lines 102-112): walk the
zipped segment pairs with position `i` and running count `matched` of
compatible pairs; `Sum.inl c` models the early `return False, matched /
total_segments` exit at an incompatible numeric pair on a boundary position,
`Sum.inr matched` the completed loop. -/
def smLoop (l1 l2 : ℕ) (tot : ℚ) : List (PyStr × PyStr) → ℕ → ℕ → Sum ℚ ℕ
  | [], _, matched => Sum.inr matched
  | (s1, s2) :: rest, i, matched =>
    if are_segments_compatible s1 s2 then smLoop l1 l2 tot rest (i + 1) (matched + 1)
    else if pyIsdigit s1 && pyIsdigit s2 then
      if i = 0 ∨ i = l1 - 1 ∨ i = l2 - 1 then Sum.inl ((matched : ℚ) / tot)
      else smLoop l1 l2 tot rest (i + 1) matched
    else smLoop l1 l2 tot rest (i + 1) matched

/-- `structured_match` (lines 87-117): segment both identifiers; no match with
confidence 0 when either has no segments or the segment counts differ by more
than 2; otherwise align positionally, with the numeric-boundary early exit,
and declare a match when the fraction of compatible pairs reaches 0.75. -/
def structured_match (id1 id2 : PyStr) : Bool × ℚ :=
  let g1 := extract_segments (some id1)
  let g2 := extract_segments (some id2)
  if g1.isEmpty || g2.isEmpty then (false, 0)
  else if ((g1.length : ℤ) - (g2.length : ℤ)).natAbs > 2 then (false, 0)
  else
    let tot : ℚ := (max g1.length g2.length : ℕ)
    match smLoop g1.length g2.length tot (g1.zip g2) 0 0 with
    | Sum.inl c => (false, c)
    | Sum.inr matched =>
      let conf : ℚ := (matched : ℚ) / tot
      (decide (conf ≥ 3 / 4), conf)

/-- Inner row computation of `levenshtein_distance` (lines 128-136): walk `s2`
with the remaining previous row `prev` (so `prev.head` is `previous_row[j]`
and the next entry is `previous_row[j+1]`) and the entry `last` just appended
to the current row, taking the minimum of insertion, deletion and
substitution costs. -/
def levRowAux (c1 : Char) : PyStr → List ℕ → ℕ → List ℕ
  | [], _, _ => []
  | c2 :: cs, prev, last =>
    match prev with
    | [] => []
    | p0 :: rest =>
      let v := min (rest.headD 0 + 1) (min (last + 1) (p0 + if c1 = c2 then 0 else 1))
      v :: levRowAux c1 cs rest v

/-- Outer row fold of `levenshtein_distance`: start from `range(len(s2)+1)`
and, for the `i`-th character of `s1`, build the row starting with `i+1`. -/
def levRows (s1 s2 : PyStr) : List ℕ :=
  ((List.range s1.length).zip s1).foldl
    (fun prev p => (p.1 + 1) :: levRowAux p.2 s2 prev (p.1 + 1))
    (List.range (s2.length + 1))

/-- The body of `levenshtein_distance` once the arguments are ordered longest
first: early return when the second string is empty, else the last entry of
the final DP row. -/
def levBase (s1 s2 : PyStr) : ℕ :=
  if s2.length = 0 then s1.length else (levRows s1 s2).getLastD 0

/-- `levenshtein_distance` (lines 120-138): swap so the first argument is the
longer string (the source's single self-call), then run the row DP. -/
def levenshtein_distance (s1 s2 : PyStr) : ℕ :=
  if s1.length < s2.length then levBase s2 s1 else levBase s1 s2

/-- The DP table of `longest_common_substring_length`: `lcsufDP s1 s2 i j` is
`dp[i][j]`, zero on the borders and otherwise the longest common suffix
length of the prefixes `s1[:i]` and `s2[:j]`. -/
def lcsufDP (s1 s2 : PyStr) : ℕ → ℕ → ℕ
  | 0, _ => 0
  | _ + 1, 0 => 0
  | i + 1, j + 1 =>
    if s1.get? i = s2.get? j then lcsufDP s1 s2 i j + 1 else 0

/-- `longest_common_substring_length` (lines 148-169): empty guard, then the
running maximum of the suffix-length table over all index pairs. -/
def longest_common_substring_length (s1 s2 : PyStr) : ℕ :=
  if s1.isEmpty || s2.isEmpty then 0
  else
    ((List.range (s1.length + 1)).flatMap fun i =>
      (List.range (s2.length + 1)).map fun j => lcsufDP s1 s2 i j).foldl max 0

/-- Positions of character `c` in `b`, in increasing order: the entry `b2j[c]`
difflib builds by appending indices left to right. -/
def indicesOf (c : Char) (b : PyStr) : List ℕ :=
  (List.range b.length).filter fun j => decide (b.get? j = some c)

/-- difflib autojunk (`SequenceMatcher.__chain_b` with `isjunk=None`): when
`len(b) >= 200`, characters occurring more than `len(b)//100 + 1` times are
"popular" and removed from `b2j`; the junk set `bjunk` itself stays empty. -/
def isPopular (b : PyStr) (c : Char) : Bool :=
  b.length ≥ 200 && b.count c > b.length / 100 + 1

/-- The purged `b2j` mapping used by `find_longest_match`. -/
def b2jOf (b : PyStr) (c : Char) : List ℕ :=
  if isPopular b c then [] else indicesOf c b

/-- One row (fixed `i`) of the difflib `find_longest_match` loop: fold over
the occurrence list of `a[i]` in `b`, skipping positions outside
`[blo, bhi)` (the `continue`/`break` on a sorted list), building `newj2len`
from the previous row and updating the best block on strictly greater size.
The state is `((besti, bestj, bestsize), newj2len)`, maps modelled as total
functions defaulting to 0. -/
def flmRow (prevRow : ℕ → ℕ) (i blo bhi : ℕ) (js : List ℕ)
    (best : ℕ × ℕ × ℕ) : (ℕ × ℕ × ℕ) × (ℕ → ℕ) :=
  js.foldl
    (fun acc j =>
      if blo ≤ j ∧ j < bhi then
        let k := (if j = 0 then 0 else prevRow (j - 1)) + 1
        let newRow := fun j2 => if j2 = j then k else acc.2 j2
        if k > acc.1.2.2 then ((i + 1 - k, j + 1 - k, k), newRow) else (acc.1, newRow)
      else acc)
    (best, fun _ => 0)

/-- The main loop of `find_longest_match`: fold the rows for `i` in
`[alo, ahi)`, threading the best block and the `j2len` row. -/
def flmLoop (a b : PyStr) (alo ahi blo bhi : ℕ) : ℕ × ℕ × ℕ :=
  (((List.range' alo (ahi - alo)).foldl
    (fun st i =>
      flmRow st.2 i blo bhi (b2jOf b (a.getD i (Char.ofNat 0))) st.1)
    ((alo, blo, 0), fun _ => 0))).1

/-- The left extension loop of `find_longest_match` (with `isjunk=None` the
junk set is empty, so the `not isbjunk(...)` test is vacuous): extend the
best block leftwards over equal characters. `fuel` bounds the loop by the
initial `besti`, which strictly decreases. -/
def flmExtendLeft (a b : PyStr) (alo blo : ℕ) : ℕ → ℕ × ℕ × ℕ → ℕ × ℕ × ℕ
  | 0, st => st
  | fuel + 1, (besti, bestj, bestsize) =>
    if alo < besti ∧ blo < bestj ∧
        a.getD (besti - 1) (Char.ofNat 0) = b.getD (bestj - 1) (Char.ofNat 0) then
      flmExtendLeft a b alo blo fuel (besti - 1, bestj - 1, bestsize + 1)
    else (besti, bestj, bestsize)

/-- The right extension loop of `find_longest_match`, symmetric to
`flmExtendLeft`; `fuel` bounds the loop by the region width. -/
def flmExtendRight (a b : PyStr) (ahi bhi : ℕ) : ℕ → ℕ × ℕ × ℕ → ℕ × ℕ × ℕ
  | 0, st => st
  | fuel + 1, (besti, bestj, bestsize) =>
    if besti + bestsize < ahi ∧ bestj + bestsize < bhi ∧
        a.getD (besti + bestsize) (Char.ofNat 0) = b.getD (bestj + bestsize) (Char.ofNat 0) then
      flmExtendRight a b ahi bhi fuel (besti, bestj, bestsize + 1)
    else (besti, bestj, bestsize)

/-- difflib `find_longest_match` on the region `a[alo:ahi] × b[blo:bhi]` with
`isjunk=None`: the DP loop, then the equal-character extension loops (the
final junk-only extension loops of the source never fire because the junk set
is empty). -/
def find_longest_match (a b : PyStr) (alo ahi blo bhi : ℕ) : ℕ × ℕ × ℕ :=
  let best := flmLoop a b alo ahi blo bhi
  flmExtendRight a b ahi bhi ahi (flmExtendLeft a b alo blo (best.1 + 1) best)

/-- Total matched size over the block decomposition of difflib
`get_matching_blocks`: the queue loop of the source explores exactly this
recursion (the final sort/collapse steps permute and merge blocks without
changing the total size, which is all `ratio` consumes). `fuel` bounds the
recursion depth; the regions shrink strictly, so the top-level fuel
`len(a)+len(b)+1` always suffices. -/
def matchingSum (a b : PyStr) : ℕ → ℕ → ℕ → ℕ → ℕ → ℕ
  | 0, _, _, _, _ => 0
  | fuel + 1, alo, ahi, blo, bhi =>
    let m := find_longest_match a b alo ahi blo bhi
    let i := m.1
    let j := m.2.1
    let k := m.2.2
    if k = 0 then 0
    else
      k + (if alo < i ∧ blo < j then matchingSum a b fuel alo i blo j else 0)
        + (if i + k < ahi ∧ j + k < bhi then matchingSum a b fuel (i + k) ahi (j + k) bhi else 0)

/-- difflib `SequenceMatcher.ratio`: `2*M/T` where `M` is the total size of
the matching blocks and `T = len(a) + len(b)`; `_calculate_ratio` returns
`1.0` when `T` is zero. -/
def smRatio (a b : PyStr) : ℚ :=
  if a.length + b.length = 0 then 1
  else 2 * (matchingSum a b (a.length + b.length + 1) 0 a.length 0 b.length : ℚ)
        / ((a.length : ℚ) + (b.length : ℚ))

/-- `calculate_similarity_ratio` (lines 141-145): 0.0 when either string is
falsy, else `SequenceMatcher(None, s1, s2).ratio()`. -/
def calculate_similarity_ratio (s1 s2 : PyStr) : ℚ :=
  if s1.isEmpty || s2.isEmpty then 0 else smRatio s1 s2

/-- `is_fuzzy_match` (lines 188-238) with its default threshold 0.90: guards,
exact and normalized equality, normalized containment, structured match,
low-confidence cutoff, numeric-density guard, short-string guard, then the
sequence ratio against 0.95 (digit-bearing) or the threshold. -/
def is_fuzzy_match (s1 s2 : PyStr) (threshold : ℚ := 9 / 10) : Bool :=
  if s1.isEmpty || s2.isEmpty then false
  else if s1 = s2 then true
  else
    let n1 := normalize_award_id (some s1)
    let n2 := normalize_award_id (some s2)
    if n1 = n2 then true
    else if pyContains n2 n1 || pyContains n1 n2 then true
    else
      let sm := structured_match s1 s2
      if sm.1 then true
      else if sm.2 < 1 / 2 then false
      else
        let g1 := extract_segments (some s1)
        let g2 := extract_segments (some s2)
        if (g1.filter pyIsdigit).length ≥ 2 ∧ (g2.filter pyIsdigit).length ≥ 2 then false
        else if min n1.length n2.length ≤ 3 then decide (n1 = n2)
        else
          let ratio := calculate_similarity_ratio n1 n2
          if n1.any isDigitChar && n2.any isDigitChar then decide (ratio ≥ 19 / 20)
          else decide (ratio ≥ threshold)

/-- `check_substring_match` (lines 241-254): falsy guard, strip, raw
containment either way, then containment of the normalized forms. -/
def check_substring_match (id1 id2 : PyStr) : Bool :=
  if id1.isEmpty || id2.isEmpty then false
  else
    let s1 := pyStrip id1
    let s2 := pyStrip id2
    if pyContains s2 s1 || pyContains s1 s2 then true
    else
      let n1 := normalize_award_id (some s1)
      let n2 := normalize_award_id (some s2)
      pyContains n2 n1 || pyContains n1 n2

/-- `check_normalized_match` (lines 257-261): falsy guard, then equality of
the normalized forms. -/
def check_normalized_match (id1 id2 : PyStr) : Bool :=
  if id1.isEmpty || id2.isEmpty then false
  else decide (normalize_award_id (some id1) = normalize_award_id (some id2))

/-- The match-type labels of the classifier: the result labels and the three
configurable check names of `match_types`. -/
inductive MatchTag where
  | exact
  | substring
  | normalized
  | fuzzy
deriving DecidableEq, Repr

/-- `match_award_ids` (lines 264-288): resolve the default enabled set
(`['substring', 'normalized', 'fuzzy']`), handle absent inputs, strip, then
test exact equality, substring, normalized and fuzzy in order, first hit
winning. -/
def match_award_ids (id1 id2 : Option PyStr)
    (match_types : Option (List MatchTag) := none) : Bool × Option MatchTag :=
  let mt := match_types.getD [.substring, .normalized, .fuzzy]
  match id1, id2 with
  | none, none => (true, some .exact)
  | none, some _ => (false, none)
  | some _, none => (false, none)
  | some a, some b =>
    let s1 := pyStrip a
    let s2 := pyStrip b
    if s1 = s2 then (true, some .exact)
    else if MatchTag.substring ∈ mt ∧ check_substring_match s1 s2 then (true, some .substring)
    else if MatchTag.normalized ∈ mt ∧ check_normalized_match s1 s2 then (true, some .normalized)
    else if MatchTag.fuzzy ∈ mt ∧ is_fuzzy_match s1 s2 then (true, some .fuzzy)
    else (false, none)

/-- `get_similarity_score` (lines 291-347). The division of the containment
bonus (lines 323-324) is the only division in the matcher whose denominator
has no local zero guard in the source, so that step is fallible: `none`
models a raised `ZeroDivisionError`; every other division is guarded by the
source (`total_segments >= 1`, `max_len >= 1`, `avg_len > 0`). -/
def get_similarity_score (id1 id2 : Option PyStr) : Option ℚ :=
  match id1, id2 with
  | none, none => some 1
  | none, some _ => some 0
  | some _, none => some 0
  | some a, some b =>
    let s1 := pyStrip a
    let s2 := pyStrip b
    if s1 = s2 then some 1
    else
      let n1 := normalize_award_id (some s1)
      let n2 := normalize_award_id (some s2)
      if n1 = n2 then some (19 / 20)
      else
        let conf := (structured_match s1 s2).2
        let g1 := extract_segments (some s1)
        let g2 := extract_segments (some s2)
        if (g1.filter pyIsdigit).length ≥ 2 ∧ (g2.filter pyIsdigit).length ≥ 2 then
          some conf
        else
          let contained : Option (List ℚ) :=
            if pyContains n2 n1 || pyContains n1 n2 then
              if max n1.length n2.length = 0 then none
              else some [max (9 / 10)
                ((min n1.length n2.length : ℚ) / (max n1.length n2.length : ℚ))]
            else some []
          contained.map fun cs =>
            let scores := cs ++ [calculate_similarity_ratio n1 n2]
            let scores := scores ++
              (if ¬n1.isEmpty ∧ ¬n2.isEmpty then
                [1 - (levenshtein_distance n1 n2 : ℚ) / (max n1.length n2.length : ℚ)]
              else [])
            let scores := scores ++
              (if ¬n1.isEmpty ∧ ¬n2.isEmpty then
                [(longest_common_substring_length n1 n2 : ℚ)
                  / (((n1.length : ℚ) + (n2.length : ℚ)) / 2)]
              else [])
            let maxScore := match scores with
              | [] => (0 : ℚ)
              | h :: t => t.foldl max h
            if conf > 0 then min maxScore (conf + 1 / 10) else maxScore

/-- `get_match_type` (lines 350-352). -/
def get_match_type (id1 id2 : Option PyStr)
    (match_types : Option (List MatchTag) := none) : Option MatchTag :=
  (match_award_ids id1 id2 match_types).2

/-- `awards_match` (lines 355-357). -/
def awards_match (id1 id2 : Option PyStr)
    (match_types : Option (List MatchTag) := none) : Bool :=
  (match_award_ids id1 id2 match_types).1

/-- One `input_index[seg].add(award)` update of the inverted-index build in
`unified_award_id_matching` (src/reconcile_grants_db.py, lines 169-174). The
`defaultdict(set)` is modelled as a total function from segment to the list
of awards added under it (empty list = key absent); `add` keeps the list
duplicate-free, matching set semantics. -/
def indexAdd (idx : PyStr → List PyStr) (seg award : PyStr) : PyStr → List PyStr :=
  fun s =>
    if s = seg then (if award ∈ idx seg then idx seg else award :: idx seg) else idx s

/-- The inner loop of the index build over one award's segments, with the
source's filter `if len(seg) > 2 or not seg.isdigit()` (line 173). -/
def indexAddAward (idx : PyStr → List PyStr) (award : PyStr) : PyStr → List PyStr :=
  (extract_segments (some award)).foldl
    (fun acc seg =>
      if seg.length > 2 || !pyIsdigit seg then indexAdd acc seg award else acc)
    idx

/-- `input_index`: the unified inverted index built over all unique
funder-side award identifiers (src/reconcile_grants_db.py, lines 169-174). -/
def buildInputIndex (awards : List PyStr) : PyStr → List PyStr :=
  awards.foldl indexAddAward (fun _ => [])

/-- Candidate retrieval for one bibliographic-side award (lines 184-188):
union the index entries of each of its segments (`if seg in input_index`
corresponds to a nonempty entry; unioning an empty list is a no-op). -/
def lookupCandidates (idx : PyStr → List PyStr) (oaAward : PyStr) : List PyStr :=
  (extract_segments (some oaAward)).foldl
    (fun acc seg => acc ++ (idx seg).filter (fun a => a ∉ acc))
    []

/-! ## Helper lemmas -/

/-- The character class of `normalize_award_id` outputs: uppercase ASCII
letter or digit. -/
def isUpperAlnum (c : Char) : Bool :=
  isDigitChar c || (65 ≤ c.toNat && c.toNat ≤ 90)

theorem toNat_ofNat_valid (n : ℕ) (h : n.isValidChar) : (Char.ofNat n).toNat = n := by
  simp [Char.ofNat, h, Char.toNat, Char.ofNatAux]
  rfl

theorem isUpperAlnum_toUpper (c : Char) (h : isAsciiAlnum c = true) :
    isUpperAlnum (Char.toUpper c) = true := by
  simp only [isAsciiAlnum, isDigitChar, Bool.or_eq_true, Bool.and_eq_true,
    decide_eq_true_eq] at h
  simp only [Char.toUpper]
  rcases h with (h | h) | h
  · rw [if_neg (by omega)]
    simp only [isUpperAlnum, isDigitChar, Bool.or_eq_true, Bool.and_eq_true,
      decide_eq_true_eq]
    omega
  · rw [if_neg (by omega)]
    simp only [isUpperAlnum, isDigitChar, Bool.or_eq_true, Bool.and_eq_true,
      decide_eq_true_eq]
    omega
  · rw [if_pos (by omega)]
    have hv : (c.toNat - 32).isValidChar := Or.inl (by omega)
    simp only [isUpperAlnum, isDigitChar, Bool.or_eq_true, Bool.and_eq_true,
      decide_eq_true_eq, toNat_ofNat_valid _ hv]
    omega

theorem toUpper_of_isUpperAlnum (c : Char) (h : isUpperAlnum c = true) :
    Char.toUpper c = c := by
  simp only [isUpperAlnum, isDigitChar, Bool.or_eq_true, Bool.and_eq_true,
    decide_eq_true_eq] at h
  simp only [Char.toUpper]
  rw [if_neg (by omega)]

theorem nfkdAsciiChar_of_isUpperAlnum (c : Char) (h : isUpperAlnum c = true) :
    nfkdAsciiChar c = [c] := by
  simp only [isUpperAlnum, isDigitChar, Bool.or_eq_true, Bool.and_eq_true,
    decide_eq_true_eq] at h
  simp only [nfkdAsciiChar]
  rw [if_pos (by omega)]

theorem isAsciiAlnum_of_isUpperAlnum (c : Char) (h : isUpperAlnum c = true) :
    isAsciiAlnum c = true := by
  simp only [isUpperAlnum, isDigitChar, Bool.or_eq_true, Bool.and_eq_true,
    decide_eq_true_eq] at h
  simp only [isAsciiAlnum, isDigitChar, Bool.or_eq_true, Bool.and_eq_true,
    decide_eq_true_eq]
  omega

theorem normalize_mem_isUpperAlnum (x : Option PyStr) (c : Char)
    (hc : c ∈ normalize_award_id x) : isUpperAlnum c = true := by
  match x with
  | none => simp [normalize_award_id] at hc
  | some s =>
    simp only [normalize_award_id] at hc
    split at hc
    · simp at hc
    · rcases List.mem_map.mp hc with ⟨d, hd, rfl⟩
      exact isUpperAlnum_toUpper d (List.mem_filter.mp hd).2

theorem normalize_pipeline_fixed (l : PyStr) (h : ∀ c ∈ l, isUpperAlnum c = true) :
    ((l.flatMap nfkdAsciiChar).filter isAsciiAlnum).map Char.toUpper = l := by
  induction l with
  | nil => simp
  | cons c cs ih =>
    have hc := h c (List.mem_cons_self c cs)
    have hcs : ∀ d ∈ cs, isUpperAlnum d = true := fun d hd => h d (List.mem_cons_of_mem c hd)
    simp only [List.flatMap_cons, nfkdAsciiChar_of_isUpperAlnum c hc, List.filter_append,
      List.map_append]
    simp only [List.filter, isAsciiAlnum_of_isUpperAlnum c hc, List.map_cons,
      toUpper_of_isUpperAlnum c hc, List.map_nil, List.singleton_append, List.cons.injEq,
      true_and]
    exact ih hcs

/-- C8: for every input (text, empty, or absent), normalization is idempotent,
and empty or absent input yields the empty string. -/
theorem normalize_award_id_idempotent_total :
    (∀ x : Option PyStr,
      normalize_award_id (some (normalize_award_id x)) = normalize_award_id x) ∧
    normalize_award_id none = [] ∧ normalize_award_id (some []) = [] := by
  refine ⟨fun x => ?_, rfl, rfl⟩
  by_cases h : normalize_award_id x = []
  · rw [h]; rfl
  · conv in normalize_award_id (some _) => rw [normalize_award_id]
    simp only [if_neg h]
    exact normalize_pipeline_fixed _ (normalize_mem_isUpperAlnum x)

/-- C9: the classifier returns `(true, exact)` when both identifiers are
absent, for every enabled match-type configuration, and `(false, none)` when
exactly the first is absent and the second is any non-absent string. -/
theorem match_award_ids_absent :
    (∀ mt : Option (List MatchTag), match_award_ids none none mt = (true, some MatchTag.exact)) ∧
    (∀ (x : PyStr) (mt : Option (List MatchTag)), match_award_ids none (some x) mt = (false, none)) := by
  exact ⟨fun mt => rfl, fun x mt => rfl⟩

/-- C7: for purely numeric segments, compatibility holds exactly when the
segments are equal as integers, equal after stripping leading zeros, or one
is length 4, the other length 2, and the 4-digit one ends with the 2-digit
one; in particular `07` vs `2007` is compatible and `08` vs `2007` is not. -/
theorem are_segments_compatible_numeric :
    (∀ s1 s2 : PyStr, pyIsdigit s1 = true → pyIsdigit s2 = true →
      (are_segments_compatible s1 s2 = true ↔
        (pyInt s1 = pyInt s2 ∨ lstripZeros s1 = lstripZeros s2 ∨
         (s1.length = 4 ∧ s2.length = 2 ∧ s2.isSuffixOf s1 = true) ∨
         (s2.length = 4 ∧ s1.length = 2 ∧ s1.isSuffixOf s2 = true)))) ∧
    are_segments_compatible ['0', '7'] ['2', '0', '0', '7'] = true ∧
    are_segments_compatible ['0', '8'] ['2', '0', '0', '7'] = false := by
  refine ⟨fun s1 s2 h1 h2 => ?_, by decide, by decide⟩
  unfold are_segments_compatible
  simp only [h1, h2, Bool.and_self, if_true]
  by_cases he : s1 = s2
  · subst he
    simp
  · rw [if_neg he]
    split_ifs with hint hstrip h42 h24
    · simp [hint]
    · simp [hstrip]
    · simp only [Bool.and_eq_true, decide_eq_true_eq] at h42
      constructor
      · exact fun hsuf => Or.inr (Or.inr (Or.inl ⟨h42.1, h42.2, hsuf⟩))
      · rintro (h | h | ⟨_, _, h⟩ | ⟨h4, h2', _⟩)
        · exact absurd h hint
        · exact absurd h hstrip
        · exact h
        · omega
    · simp only [Bool.and_eq_true, decide_eq_true_eq, not_and] at h42
      simp only [Bool.and_eq_true, decide_eq_true_eq] at h24
      constructor
      · exact fun hsuf => Or.inr (Or.inr (Or.inr ⟨h24.1, h24.2, hsuf⟩))
      · rintro (h | h | ⟨h4, h2', _⟩ | ⟨_, _, h⟩)
        · exact absurd h hint
        · exact absurd h hstrip
        · omega
        · exact h
    · simp only [Bool.and_eq_true, decide_eq_true_eq, not_and] at h42 h24
      simp only [false_iff]
      rintro (h | h | ⟨h4, h2', _⟩ | ⟨h4, h2', _⟩)
      · exact absurd h hint
      · exact absurd h hstrip
      · exact absurd h2' (h42 h4)
      · exact absurd h2' (h24 h4)

/-- Witness for C7 at the concrete year-abbreviation pair `07` / `2007`. -/
theorem are_segments_compatible_numeric_witness :
    are_segments_compatible ['0', '7'] ['2', '0', '0', '7'] = true :=
  (are_segments_compatible_numeric.1 ['0', '7'] ['2', '0', '0', '7']
    (by decide) (by decide)).mpr
    (Or.inr (Or.inr (Or.inr ⟨by decide, by decide, by decide⟩)))

/-- C3 counterexample: reading "absent/empty" as covering the empty string,
the claim fails: with exactly one empty identifier the score is 0.9, not 0.0
(the empty normalized form is contained in every string, so the containment
bonus fires), and with one absent and one empty identifier the score is 0.0,
not 1.0. -/
theorem get_similarity_score_empty_not_absent :
    (get_similarity_score (some []) (some ['X']) = some (9 / 10) ∧ (9 / 10 : ℚ) ≠ 0) ∧
    (get_similarity_score none (some []) = some 0 ∧ (0 : ℚ) ≠ 1) := by
  refine ⟨⟨?_, by norm_num⟩, ⟨rfl, by norm_num⟩⟩
  with_unfolding_all decide

/-- C3 amended: the special cases hold with "absent" meaning Python `None`
only. Both absent scores 1.0; exactly one absent scores 0.0 (even when the
other is empty); equal trimmed raw strings score 1.0; differing trimmed
strings with equal normalized forms score 0.95. -/
theorem get_similarity_score_special_cases :
    get_similarity_score none none = some 1 ∧
    (∀ x : PyStr,
      get_similarity_score none (some x) = some 0 ∧
      get_similarity_score (some x) none = some 0) ∧
    (∀ a b : PyStr, pyStrip a = pyStrip b →
      get_similarity_score (some a) (some b) = some 1) ∧
    (∀ a b : PyStr, pyStrip a ≠ pyStrip b →
      normalize_award_id (some (pyStrip a)) = normalize_award_id (some (pyStrip b)) →
      get_similarity_score (some a) (some b) = some (19 / 20)) := by
  refine ⟨rfl, fun x => ⟨rfl, rfl⟩, fun a b h => ?_, fun a b h1 h2 => ?_⟩
  · simp only [get_similarity_score]
    rw [if_pos h]
  · simp only [get_similarity_score]
    rw [if_neg h1]
    simp only [h2, if_true]

/-- Witness for C3's amended special cases at concrete inputs: `"A "` and
`"A"` trim to equal strings and score 1.0; `"A-1"` and `"a1"` trim to
different strings with the same normalized form and score 0.95. -/
theorem get_similarity_score_special_cases_witness :
    get_similarity_score (some ['A', ' ']) (some ['A']) = some 1 ∧
    get_similarity_score (some ['A', '-', '1']) (some ['a', '1']) = some (19 / 20) :=
  ⟨get_similarity_score_special_cases.2.2.1 ['A', ' '] ['A'] (by decide),
   get_similarity_score_special_cases.2.2.2 ['A', '-', '1'] ['a', '1']
     (by decide) (by decide)⟩

/-- Count of positionally compatible segment pairs, used to phrase the
early-exit confidence of `structured_match`. -/
def compatCount (ps : List (PyStr × PyStr)) : ℕ :=
  (ps.filter fun p => are_segments_compatible p.1 p.2).length

theorem smLoop_exit (l1 l2 : ℕ) (tot : ℚ) (ps : List (PyStr × PyStr)) :
    ∀ (k i0 m0 : ℕ) (p : PyStr × PyStr), ps.get? k = some p →
    are_segments_compatible p.1 p.2 = false →
    pyIsdigit p.1 = true → pyIsdigit p.2 = true →
    (i0 + k = 0 ∨ i0 + k = l1 - 1 ∨ i0 + k = l2 - 1) →
    (∀ j, j < k → ∀ q, ps.get? j = some q →
      are_segments_compatible q.1 q.2 = false →
      pyIsdigit q.1 = true → pyIsdigit q.2 = true →
      ¬(i0 + j = 0 ∨ i0 + j = l1 - 1 ∨ i0 + j = l2 - 1)) →
    smLoop l1 l2 tot ps i0 m0 =
      Sum.inl (((m0 + compatCount (ps.take k) : ℕ) : ℚ) / tot) := by
  induction ps with
  | nil =>
    intro k i0 m0 p hp
    simp [List.get?] at hp
  | cons hd tl ih =>
    obtain ⟨s1, s2⟩ := hd
    intro k i0 m0 p hp hc hdg1 hdg2 hbound hprev
    match k with
    | 0 =>
      simp only [List.get?] at hp
      cases hp
      simp only [smLoop, hc, Bool.false_eq_true, if_false, hdg1, hdg2, Bool.and_self, if_true]
      rw [if_pos (by omega)]
      simp [compatCount]
    | k + 1 =>
      simp only [List.get?] at hp
      have hbound' : (i0 + 1) + k = 0 ∨ (i0 + 1) + k = l1 - 1 ∨ (i0 + 1) + k = l2 - 1 := by
        omega
      have hprev' : ∀ j, j < k → ∀ q, tl.get? j = some q →
          are_segments_compatible q.1 q.2 = false →
          pyIsdigit q.1 = true → pyIsdigit q.2 = true →
          ¬((i0 + 1) + j = 0 ∨ (i0 + 1) + j = l1 - 1 ∨ (i0 + 1) + j = l2 - 1) := by
        intro j hj q hq hqc hq1 hq2 hcon
        exact hprev (j + 1) (by omega) q (by simpa [List.get?] using hq) hqc hq1 hq2
          (by omega)
      by_cases hcomp : are_segments_compatible s1 s2 = true
      · have hcc : compatCount (((s1, s2) :: tl).take (k + 1)) = compatCount (tl.take k) + 1 := by
          simp [compatCount, List.take_succ_cons, List.filter_cons, hcomp]
        simp only [smLoop, hcomp, if_true]
        rw [hcc, show m0 + (compatCount (tl.take k) + 1) = (m0 + 1) + compatCount (tl.take k)
          by omega]
        exact ih k (i0 + 1) (m0 + 1) p hp hc hdg1 hdg2 hbound' hprev'
      · have hcomp' : are_segments_compatible s1 s2 = false := by
          simpa using hcomp
        have hcc : compatCount (((s1, s2) :: tl).take (k + 1)) = compatCount (tl.take k) := by
          simp [compatCount, List.take_succ_cons, List.filter_cons, hcomp']
        rw [hcc]
        by_cases hdig : pyIsdigit s1 = true ∧ pyIsdigit s2 = true
        · have hnb := hprev 0 (by omega) (s1, s2) rfl hcomp' hdig.1 hdig.2
          simp only [Nat.add_zero] at hnb
          simp only [smLoop, hcomp', Bool.false_eq_true, if_false, hdig.1, hdig.2,
            Bool.and_self, if_true]
          rw [if_neg hnb]
          exact ih k (i0 + 1) m0 p hp hc hdg1 hdg2 hbound' hprev'
        · have hb : (pyIsdigit s1 && pyIsdigit s2) = false := by
            rcases Bool.eq_false_or_eq_true (pyIsdigit s1) with e1 | e1
            · rcases Bool.eq_false_or_eq_true (pyIsdigit s2) with e2 | e2
              · exact absurd ⟨e1, e2⟩ hdig
              · rw [e2, Bool.and_false]
            · rw [e1, Bool.false_and]
          simp only [smLoop, hcomp', Bool.false_eq_true, if_false, hb]
          exact ih k (i0 + 1) m0 p hp hc hdg1 hdg2 hbound' hprev'

/-- C5: whenever the aligned segment pair at position 0, or at the final
position of either segment sequence, is a purely numeric incompatible pair
(and no earlier such boundary pair caused the exit first), `structured_match`
returns no-match with confidence equal to the fraction of segments matched so
far; in particular `2019-AB-100` vs `2020-AB-100` yields `(false, 0)`. -/
theorem structured_match_boundary_rule :
    (∀ (id1 id2 : PyStr) (k : ℕ) (p : PyStr × PyStr),
      ((extract_segments (some id1)).zip (extract_segments (some id2))).get? k = some p →
      are_segments_compatible p.1 p.2 = false →
      pyIsdigit p.1 = true → pyIsdigit p.2 = true →
      (k = 0 ∨ k = (extract_segments (some id1)).length - 1 ∨
        k = (extract_segments (some id2)).length - 1) →
      (∀ j, j < k → ∀ q,
        ((extract_segments (some id1)).zip (extract_segments (some id2))).get? j = some q →
        are_segments_compatible q.1 q.2 = false →
        pyIsdigit q.1 = true → pyIsdigit q.2 = true →
        ¬(j = 0 ∨ j = (extract_segments (some id1)).length - 1 ∨
          j = (extract_segments (some id2)).length - 1)) →
      (((extract_segments (some id1)).length : ℤ) -
        ((extract_segments (some id2)).length : ℤ)).natAbs ≤ 2 →
      structured_match id1 id2 =
        (false,
          ((compatCount (((extract_segments (some id1)).zip
              (extract_segments (some id2))).take k) : ℕ) : ℚ) /
            ((max (extract_segments (some id1)).length
              (extract_segments (some id2)).length : ℕ) : ℚ))) ∧
    structured_match ("2019-AB-100".toList) ("2020-AB-100".toList) = (false, 0) := by
  constructor
  · intro id1 id2 k p hp hc h1 h2 hbound hprev hdiff
    have hk : k < ((extract_segments (some id1)).zip (extract_segments (some id2))).length := by
      rcases List.get?_eq_some.mp hp with ⟨h, _⟩
      exact h
    rw [List.length_zip] at hk
    have hg1 : (extract_segments (some id1)).isEmpty = false := by
      cases e : extract_segments (some id1) with
      | nil => rw [e] at hk; simp at hk
      | cons h t => rfl
    have hg2 : (extract_segments (some id2)).isEmpty = false := by
      cases e : extract_segments (some id2) with
      | nil => rw [e] at hk; simp at hk
      | cons h t => rfl
    simp only [structured_match, hg1, hg2, Bool.or_self, Bool.false_eq_true, if_false]
    rw [if_neg (by omega)]
    rw [smLoop_exit (extract_segments (some id1)).length (extract_segments (some id2)).length
      _ _ k 0 0 p hp hc h1 h2 (by simpa using hbound)
      (by intro j hj q hq hqc hq1 hq2; simpa using hprev j hj q hq hqc hq1 hq2)]
    simp
  · with_unfolding_all decide

/-- Witness for C5 at the concrete pair `2019-AB-100` / `2020-AB-100` with
the mismatching numeric pair at position 0. -/
theorem structured_match_boundary_rule_witness :
    structured_match ("2019-AB-100".toList) ("2020-AB-100".toList) =
      (false,
        ((compatCount (((extract_segments (some ("2019-AB-100".toList))).zip
            (extract_segments (some ("2020-AB-100".toList)))).take 0) : ℕ) : ℚ) /
          ((max (extract_segments (some ("2019-AB-100".toList))).length
            (extract_segments (some ("2020-AB-100".toList))).length : ℕ) : ℚ)) :=
  structured_match_boundary_rule.1 _ _ 0 ("2019".toList, "2020".toList)
    (by with_unfolding_all decide) (by with_unfolding_all decide)
    (by decide) (by decide) (Or.inl rfl)
    (fun j hj => absurd hj (Nat.not_lt_zero j))
    (by with_unfolding_all decide)

theorem smLoop_nonneg (l1 l2 : ℕ) (tot : ℚ) (htot : 0 ≤ tot) :
    ∀ (ps : List (PyStr × PyStr)) (i0 m0 : ℕ) (c : ℚ),
    smLoop l1 l2 tot ps i0 m0 = Sum.inl c → 0 ≤ c := by
  intro ps
  induction ps with
  | nil =>
    intro i0 m0 c h
    simp [smLoop] at h
  | cons hd tl ih =>
    obtain ⟨s1, s2⟩ := hd
    intro i0 m0 c h
    simp only [smLoop] at h
    split at h
    · exact ih _ _ _ h
    · split at h
      · split at h
        · cases h
          exact div_nonneg (Nat.cast_nonneg _) htot
        · exact ih _ _ _ h
      · exact ih _ _ _ h

theorem structured_match_conf_nonneg (x y : PyStr) : 0 ≤ (structured_match x y).2 := by
  simp only [structured_match]
  split
  · simp
  · split
    · simp
    · split
      · next c he =>
        exact smLoop_nonneg _ _ _ (Nat.cast_nonneg _) _ _ _ _ he
      · next m he =>
        exact div_nonneg (Nat.cast_nonneg _) (Nat.cast_nonneg _)

/-- C6: for non-absent identifiers whose trimmed strings differ and whose
normalized forms differ, a nonzero structured confidence `c` caps the final
similarity score at `c + 0.1`. -/
theorem get_similarity_score_structured_cap :
    ∀ a b : PyStr, pyStrip a ≠ pyStrip b →
    normalize_award_id (some (pyStrip a)) ≠ normalize_award_id (some (pyStrip b)) →
    (structured_match (pyStrip a) (pyStrip b)).2 ≠ 0 →
    ∀ q : ℚ, get_similarity_score (some a) (some b) = some q →
    q ≤ (structured_match (pyStrip a) (pyStrip b)).2 + 1 / 10 := by
  intro a b h1 h2 hconf q hq
  have hpos : 0 < (structured_match (pyStrip a) (pyStrip b)).2 :=
    lt_of_le_of_ne (structured_match_conf_nonneg _ _) (Ne.symm hconf)
  simp only [get_similarity_score, if_neg h1, if_neg h2] at hq
  by_cases hnum : ((extract_segments (some (pyStrip a))).filter pyIsdigit).length ≥ 2 ∧
      ((extract_segments (some (pyStrip b))).filter pyIsdigit).length ≥ 2
  · rw [if_pos hnum] at hq
    cases hq
    linarith
  · rw [if_neg hnum] at hq
    rw [Option.map_eq_some'] at hq
    rcases hq with ⟨cs, hcs, hfq⟩
    rw [← hfq]
    simp only [gt_iff_lt, hpos, if_true]
    exact min_le_right _ _

/-- Witness for C6 at `AB-12` vs `AB-34`: structured confidence 1/2, score
1/2, and the cap 1/2 + 1/10 holds. -/
theorem get_similarity_score_structured_cap_witness :
    (1 / 2 : ℚ) ≤ (structured_match (pyStrip ("AB-12".toList))
      (pyStrip ("AB-34".toList))).2 + 1 / 10 :=
  get_similarity_score_structured_cap ("AB-12".toList) ("AB-34".toList)
    (by decide) (by decide) (by with_unfolding_all decide) (1 / 2)
    (by with_unfolding_all decide)

/-- C1: the similarity scorer is total: it returns a value (never the `none`
that models a raised exception) on every pair of inputs, including absent and
empty values, and in particular when both identifiers normalize to the empty
string while their raw stripped forms differ (that case is answered by the
equal-normalized-forms rule before the unguarded division is reached). -/
theorem get_similarity_score_total :
    ∀ id1 id2 : Option PyStr, (get_similarity_score id1 id2).isSome = true := by
  intro id1 id2
  match id1, id2 with
  | none, none => rfl
  | none, some b => rfl
  | some a, none => rfl
  | some a, some b =>
    simp only [get_similarity_score]
    split
    · rfl
    · split
      · rfl
      · next h2 =>
        split
        · rfl
        · rw [Option.isSome_map']
          split
          · rw [if_neg ?_]
            · rfl
            · intro hmax
              apply h2
              have hl := Nat.max_eq_zero_iff.mp hmax
              rw [List.length_eq_zero.mp hl.1, List.length_eq_zero.mp hl.2]
          · rfl

theorem dropWhile_head?_false (p : Char → Bool) (l : PyStr) (c : Char)
    (h : (List.dropWhile p l).head? = some c) : p c = false := by
  induction l with
  | nil => simp at h
  | cons d ds ih =>
    rw [List.dropWhile_cons] at h
    split at h
    · exact ih h
    · next hd =>
      simp only [List.head?_cons, Option.some.injEq] at h
      cases h
      exact Bool.eq_false_iff.mpr hd

theorem dropWhile_getLast?_of_ne_nil (p : Char → Bool) (l : PyStr)
    (h : List.dropWhile p l ≠ []) : (List.dropWhile p l).getLast? = l.getLast? := by
  induction l with
  | nil => rfl
  | cons d ds ih =>
    rw [List.dropWhile_cons]
    rw [List.dropWhile_cons] at h
    split
    · next hd =>
      rw [if_pos hd] at h
      have hds : ds ≠ [] := by
        intro e
        rw [e] at h
        exact h rfl
      rw [ih h]
      match ds, hds with
      | e :: es, _ => exact List.getLast?_cons_cons.symm
    · rfl

theorem dropWhile_of_head?_false (p : Char → Bool) (l : PyStr)
    (h : ∀ c, l.head? = some c → p c = false) : List.dropWhile p l = l := by
  match l with
  | [] => rfl
  | c :: cs =>
    rw [List.dropWhile_cons, if_neg]
    rw [h c rfl]
    simp

/-- Python `strip` is idempotent: stripping a stripped string is a no-op. -/
theorem pyStrip_idem (s : PyStr) : pyStrip (pyStrip s) = pyStrip s := by
  unfold pyStrip
  set u := s.dropWhile isSpaceChar with hu
  set v := u.reverse.dropWhile isSpaceChar with hv
  by_cases hvnil : v = []
  · rw [hvnil]
    rfl
  · have hstep1 : List.dropWhile isSpaceChar v.reverse = v.reverse := by
      apply dropWhile_of_head?_false
      intro c hc
      rw [List.head?_reverse, hv, dropWhile_getLast?_of_ne_nil _ _ hvnil,
        List.getLast?_reverse] at hc
      exact dropWhile_head?_false isSpaceChar s c (hu ▸ hc)
    rw [hstep1, List.reverse_reverse]
    have hstep2 : List.dropWhile isSpaceChar v = v := by
      apply dropWhile_of_head?_false
      intro c hc
      exact dropWhile_head?_false isSpaceChar u.reverse c (hv ▸ hc)
    rw [hstep2]

theorem check_substring_of_normalized (s1 s2 : PyStr)
    (hs1 : pyStrip s1 = s1) (hs2 : pyStrip s2 = s2)
    (h : check_normalized_match s1 s2 = true) : check_substring_match s1 s2 = true := by
  unfold check_normalized_match at h
  simp only [check_substring_match]
  by_cases hg : (s1.isEmpty || s2.isEmpty) = true
  · rw [if_pos hg] at h
    cases h
  · rw [if_neg hg] at h
    rw [if_neg hg, hs1, hs2]
    have hnorm : normalize_award_id (some s1) = normalize_award_id (some s2) :=
      of_decide_eq_true h
    split
    · rfl
    · rw [hnorm]
      simp [pyContains, List.infix_refl]

/-- C10: with `substring` among the enabled match types, the classifier can
never answer `normalized`: equal normalized forms always satisfy the earlier
substring containment check, so the `normalized` label is reachable only when
`substring` is disabled. -/
theorem match_award_ids_normalized_unreachable :
    ∀ (a b : PyStr) (mtypes : Option (List MatchTag)),
    MatchTag.substring ∈ mtypes.getD [MatchTag.substring, MatchTag.normalized, MatchTag.fuzzy] →
    (match_award_ids (some a) (some b) mtypes).2 ≠ some MatchTag.normalized := by
  intro a b mtypes hmem
  simp only [match_award_ids]
  split
  · simp
  · split
    · simp
    · next hsub =>
      split
      · next hnorm =>
        exact absurd ⟨hmem, check_substring_of_normalized _ _ (pyStrip_idem a)
          (pyStrip_idem b) hnorm.2⟩ hsub
      · split
        · simp
        · simp

/-- Witness for C10 at a concrete pair with the default match-type set. -/
theorem match_award_ids_normalized_unreachable_witness :
    (match_award_ids (some ['A']) (some ['B']) none).2 ≠ some MatchTag.normalized :=
  match_award_ids_normalized_unreachable ['A'] ['B'] none (by decide)

theorem indexAdd_mem (idx : PyStr → List PyStr) (seg award a s : PyStr) :
    a ∈ indexAdd idx seg award s ↔ a ∈ idx s ∨ (s = seg ∧ a = award) := by
  unfold indexAdd
  by_cases hs : s = seg
  · subst hs
    rw [if_pos rfl]
    by_cases hin : award ∈ idx s
    · rw [if_pos hin]
      constructor
      · exact fun h => Or.inl h
      · rintro (h | ⟨-, rfl⟩)
        · exact h
        · exact hin
    · rw [if_neg hin, List.mem_cons]
      constructor
      · rintro (rfl | h)
        · exact Or.inr ⟨rfl, rfl⟩
        · exact Or.inl h
      · rintro (h | ⟨-, rfl⟩)
        · exact Or.inr h
        · exact Or.inl rfl
  · rw [if_neg hs]
    simp [hs]

theorem indexAddAward_mem (idx : PyStr → List PyStr) (award a s : PyStr) :
    a ∈ indexAddAward idx award s ↔
      a ∈ idx s ∨ (s ∈ extract_segments (some award) ∧
        (2 < s.length ∨ pyIsdigit s = false) ∧ a = award) := by
  unfold indexAddAward
  generalize extract_segments (some award) = segs
  induction segs generalizing idx with
  | nil => simp
  | cons seg rest ih =>
    rw [List.foldl_cons]
    by_cases hcond : (seg.length > 2 || !pyIsdigit seg) = true
    · rw [if_pos hcond, ih, indexAdd_mem]
      have hC : 2 < seg.length ∨ pyIsdigit seg = false := by
        simpa [Bool.or_eq_true, decide_eq_true_eq, Bool.not_eq_true'] using hcond
      constructor
      · rintro ((h | ⟨rfl, rfl⟩) | ⟨hseg, hc, rfl⟩)
        · exact Or.inl h
        · exact Or.inr ⟨List.mem_cons_self _ _, hC, rfl⟩
        · exact Or.inr ⟨List.mem_cons_of_mem _ hseg, hc, rfl⟩
      · rintro (h | ⟨hmem, hc, rfl⟩)
        · exact Or.inl (Or.inl h)
        · rcases List.mem_cons.mp hmem with rfl | hmem'
          · exact Or.inl (Or.inr ⟨rfl, rfl⟩)
          · exact Or.inr ⟨hmem', hc, rfl⟩
    · rw [if_neg hcond, ih]
      have hC : ¬(2 < seg.length ∨ pyIsdigit seg = false) := by
        intro hc
        apply hcond
        simpa [Bool.or_eq_true, decide_eq_true_eq, Bool.not_eq_true'] using hc
      constructor
      · rintro (h | ⟨hseg, hc, rfl⟩)
        · exact Or.inl h
        · exact Or.inr ⟨List.mem_cons_of_mem _ hseg, hc, rfl⟩
      · rintro (h | ⟨hmem, hc, rfl⟩)
        · exact Or.inl h
        · rcases List.mem_cons.mp hmem with rfl | hmem'
          · exact absurd hc hC
          · exact Or.inr ⟨hmem', hc, rfl⟩

theorem buildInputIndex_mem (awards : List PyStr) (a s : PyStr) :
    a ∈ buildInputIndex awards s ↔
      a ∈ awards ∧ s ∈ extract_segments (some a) ∧
        (2 < s.length ∨ pyIsdigit s = false) := by
  unfold buildInputIndex
  suffices h : ∀ idx : PyStr → List PyStr,
      a ∈ awards.foldl indexAddAward idx s ↔
        a ∈ idx s ∨ (a ∈ awards ∧ s ∈ extract_segments (some a) ∧
          (2 < s.length ∨ pyIsdigit s = false)) by
    rw [h]
    simp
  induction awards with
  | nil =>
    intro idx
    simp
  | cons aw rest ih =>
    intro idx
    rw [List.foldl_cons, ih, indexAddAward_mem]
    constructor
    · rintro ((h | ⟨hseg, hc, rfl⟩) | ⟨hmem, hrest⟩)
      · exact Or.inl h
      · exact Or.inr ⟨List.mem_cons_self _ _, hseg, hc⟩
      · exact Or.inr ⟨List.mem_cons_of_mem _ hmem, hrest⟩
    · rintro (h | ⟨hmem, hseg, hc⟩)
      · exact Or.inl (Or.inl h)
      · rcases List.mem_cons.mp hmem with rfl | hmem'
        · exact Or.inl (Or.inr ⟨hseg, hc, rfl⟩)
        · exact Or.inr ⟨hmem', hseg, hc⟩

theorem lookupCandidates_mem (idx : PyStr → List PyStr) (o a : PyStr) :
    a ∈ lookupCandidates idx o ↔ ∃ s ∈ extract_segments (some o), a ∈ idx s := by
  unfold lookupCandidates
  suffices h : ∀ (segs : List PyStr) (acc : List PyStr),
      a ∈ segs.foldl (fun acc seg => acc ++ (idx seg).filter (fun x => x ∉ acc)) acc ↔
        a ∈ acc ∨ ∃ s ∈ segs, a ∈ idx s by
    rw [h]
    simp
  intro segs
  induction segs with
  | nil => simp
  | cons seg rest ih =>
    intro acc
    rw [List.foldl_cons, ih]
    constructor
    · rintro (h | ⟨s, hs, hin⟩)
      · rw [List.mem_append] at h
        rcases h with h | h
        · exact Or.inl h
        · rw [List.mem_filter] at h
          exact Or.inr ⟨seg, List.mem_cons_self _ _, h.1⟩
      · exact Or.inr ⟨s, List.mem_cons_of_mem _ hs, hin⟩
    · rintro (h | ⟨s, hs, hin⟩)
      · exact Or.inl (List.mem_append.mpr (Or.inl h))
      · rcases List.mem_cons.mp hs with rfl | hs'
        · by_cases hacc : a ∈ acc
          · exact Or.inl (List.mem_append.mpr (Or.inl hacc))
          · exact Or.inl (List.mem_append.mpr (Or.inr
              (List.mem_filter.mpr ⟨hin, by simpa using hacc⟩)))
        · exact Or.inr ⟨s, hs', hin⟩

/-- C4 counterexample: the funder-side award `12-AB` has `12` among its
segments, yet the index built from it does not map `12` to the award — the
build loop skips purely numeric segments of length at most 2. -/
theorem buildInputIndex_counterexample :
    ['1', '2'] ∈ extract_segments (some ("12-AB".toList)) ∧
    ("12-AB".toList) ∉ buildInputIndex [("12-AB".toList)] ['1', '2'] :=
  ⟨by decide, by decide⟩

/-- C4 amended: the inverted index maps a segment `s` to a funder-side award
`a` precisely when `s` is a segment of `a` that is longer than two characters
or not purely numeric; any opposite-side identifier sharing such a segment
retrieves `a` among its candidates. -/
theorem buildInputIndex_spec :
    (∀ (awards : List PyStr) (a s : PyStr),
      a ∈ buildInputIndex awards s ↔
        a ∈ awards ∧ s ∈ extract_segments (some a) ∧
          (2 < s.length ∨ pyIsdigit s = false)) ∧
    (∀ (awards : List PyStr) (o a s : PyStr),
      a ∈ awards → s ∈ extract_segments (some a) →
      (2 < s.length ∨ pyIsdigit s = false) → s ∈ extract_segments (some o) →
      a ∈ lookupCandidates (buildInputIndex awards) o) := by
  constructor
  · exact buildInputIndex_mem
  · intro awards o a s ha hs hc ho
    exact (lookupCandidates_mem _ o a).mpr
      ⟨s, ho, (buildInputIndex_mem awards a s).mpr ⟨ha, hs, hc⟩⟩

/-- Witness for C4's amended statement: the award `NSF-123` is indexed under
its segment `NSF` and retrieved as candidate for the identifier `NSF_999`. -/
theorem buildInputIndex_spec_witness :
    ("NSF-123".toList) ∈
      lookupCandidates (buildInputIndex [("NSF-123".toList)]) ("NSF_999".toList) :=
  buildInputIndex_spec.2 [("NSF-123".toList)] ("NSF_999".toList) ("NSF-123".toList)
    ("NSF".toList) (by decide) (by decide) (by decide) (by decide)

theorem zip_all_pyInt_symm (l1 l2 : List PyStr) :
    ((l1.zip l2).all fun p => pyInt p.1 = pyInt p.2) =
    ((l2.zip l1).all fun p => pyInt p.1 = pyInt p.2) := by
  induction l1 generalizing l2 with
  | nil => cases l2 <;> rfl
  | cons a as ih =>
    cases l2 with
    | nil => rfl
    | cons b bs =>
      simp only [List.zip_cons_cons, List.all_cons, ih bs]
      congr 1
      exact decide_eq_decide.mpr eq_comm

theorem are_segments_compatible_symm (s1 s2 : PyStr) :
    are_segments_compatible s1 s2 = are_segments_compatible s2 s1 := by
  by_cases he : s1 = s2
  · subst he
    rfl
  · simp only [are_segments_compatible, if_neg he, if_neg (Ne.symm he)]
    by_cases hd : pyIsdigit s1 = true ∧ pyIsdigit s2 = true
    · rw [if_pos (show (pyIsdigit s1 && pyIsdigit s2) = true by rw [hd.1, hd.2]; rfl),
        if_pos (show (pyIsdigit s2 && pyIsdigit s1) = true by rw [hd.1, hd.2]; rfl)]
      by_cases hint : pyInt s1 = pyInt s2
      · rw [if_pos hint, if_pos hint.symm]
      · rw [if_neg hint, if_neg (Ne.symm hint)]
        by_cases hls : lstripZeros s1 = lstripZeros s2
        · rw [if_pos hls, if_pos hls.symm]
        · rw [if_neg hls, if_neg (Ne.symm hls)]
          by_cases h42 : s1.length = 4 ∧ s2.length = 2
          · have h24f : ¬((decide (List.length s2 = 4) && decide (List.length s1 = 2)) = true) := by
              simp only [Bool.and_eq_true, decide_eq_true_eq]
              omega
            rw [if_pos (show (decide (List.length s1 = 4) && decide (List.length s2 = 2)) = true
                  by simp [h42.1, h42.2]),
              if_neg h24f,
              if_pos (show (decide (List.length s1 = 4) && decide (List.length s2 = 2)) = true
                  by simp [h42.1, h42.2])]
          · have h42f : ¬((decide (List.length s1 = 4) && decide (List.length s2 = 2)) = true) := by
              simp only [Bool.and_eq_true, decide_eq_true_eq]
              tauto
            rw [if_neg h42f]
            by_cases h24 : s2.length = 4 ∧ s1.length = 2
            · rw [if_pos (show (decide (List.length s2 = 4) && decide (List.length s1 = 2)) = true
                    by simp [h24.1, h24.2]),
                if_pos (show (decide (List.length s2 = 4) && decide (List.length s1 = 2)) = true
                    by simp [h24.1, h24.2])]
            · have h24f : ¬((decide (List.length s2 = 4) && decide (List.length s1 = 2)) = true) := by
                simp only [Bool.and_eq_true, decide_eq_true_eq]
                tauto
              rw [if_neg h24f, if_neg h24f, if_neg h42f]
    · have hdf1 : ¬((pyIsdigit s1 && pyIsdigit s2) = true) := by
        simp only [Bool.and_eq_true]
        tauto
      have hdf2 : ¬((pyIsdigit s2 && pyIsdigit s1) = true) := by
        simp only [Bool.and_eq_true]
        tauto
      rw [if_neg hdf1, if_neg hdf2]
      by_cases hne : pyIsdigit s1 ≠ pyIsdigit s2
      · rw [if_pos hne, if_pos (Ne.symm hne)]
      · rw [if_neg hne, if_neg (fun h => hne (Ne.symm h))]
        have hstart :
            (if (List.isPrefixOf s2 s1 || List.isPrefixOf s1 s2) = true then
              !(digitRuns s1).isEmpty && !(digitRuns s2).isEmpty &&
                (((digitRuns s1).zip (digitRuns s2)).all fun p => pyInt p.1 = pyInt p.2)
            else false) =
            (if (List.isPrefixOf s1 s2 || List.isPrefixOf s2 s1) = true then
              !(digitRuns s2).isEmpty && !(digitRuns s1).isEmpty &&
                (((digitRuns s2).zip (digitRuns s1)).all fun p => pyInt p.1 = pyInt p.2)
            else false) := by
          rw [Bool.or_comm, zip_all_pyInt_symm]
          by_cases hp : (List.isPrefixOf s1 s2 || List.isPrefixOf s2 s1) = true
          · rw [if_pos hp, if_pos hp,
              show (!(digitRuns s1).isEmpty && !(digitRuns s2).isEmpty) =
                (!(digitRuns s2).isEmpty && !(digitRuns s1).isEmpty) from Bool.and_comm _ _]
          · rw [if_neg hp, if_neg hp]
        rw [hstart]
        by_cases hsr : (if (List.isPrefixOf s1 s2 || List.isPrefixOf s2 s1) = true then
            !(digitRuns s2).isEmpty && !(digitRuns s1).isEmpty &&
              (((digitRuns s2).zip (digitRuns s1)).all fun p => pyInt p.1 = pyInt p.2)
          else false) = true
        · rw [if_pos hsr, if_pos hsr]
        · rw [if_neg hsr, if_neg hsr]
          by_cases hcore : dropDigits s1 = dropDigits s2
          · rw [if_pos hcore, if_pos hcore.symm]
            by_cases hruns : (!(digitRuns s1).isEmpty && !(digitRuns s2).isEmpty) = true
            · rw [if_pos hruns,
                if_pos (show (!(digitRuns s2).isEmpty && !(digitRuns s1).isEmpty) = true
                  by rw [Bool.and_comm]; exact hruns)]
              by_cases hhd : (digitRuns s1).headD [] ≠ (digitRuns s2).headD [] ∧
                  pyInt ((digitRuns s1).headD []) ≠ pyInt ((digitRuns s2).headD [])
              · rw [if_pos (show (decide ((digitRuns s1).headD [] ≠ (digitRuns s2).headD []) &&
                      decide (pyInt ((digitRuns s1).headD []) ≠
                        pyInt ((digitRuns s2).headD []))) = true
                    by simp only [Bool.and_eq_true, decide_eq_true_eq]; exact hhd),
                  if_pos (show (decide ((digitRuns s2).headD [] ≠ (digitRuns s1).headD []) &&
                      decide (pyInt ((digitRuns s2).headD []) ≠
                        pyInt ((digitRuns s1).headD []))) = true
                    by simp only [Bool.and_eq_true, decide_eq_true_eq]
                       exact ⟨Ne.symm hhd.1, Ne.symm hhd.2⟩)]
              · rw [if_neg (show ¬((decide ((digitRuns s1).headD [] ≠ (digitRuns s2).headD []) &&
                      decide (pyInt ((digitRuns s1).headD []) ≠
                        pyInt ((digitRuns s2).headD []))) = true)
                    by simp only [Bool.and_eq_true, decide_eq_true_eq]; exact hhd),
                  if_neg (show ¬((decide ((digitRuns s2).headD [] ≠ (digitRuns s1).headD []) &&
                      decide (pyInt ((digitRuns s2).headD []) ≠
                        pyInt ((digitRuns s1).headD []))) = true)
                    by simp only [Bool.and_eq_true, decide_eq_true_eq]
                       intro h
                       exact hhd ⟨Ne.symm h.1, Ne.symm h.2⟩)]
            · rw [if_neg hruns,
                if_neg (show ¬((!(digitRuns s2).isEmpty && !(digitRuns s1).isEmpty) = true)
                  by rw [Bool.and_comm]; exact hruns)]
          · rw [if_neg hcore,
              if_neg (show ¬(dropDigits s2 = dropDigits s1) from fun h => hcore h.symm)]
            by_cases hcont : (pyContains s2 s1 || pyContains s1 s2) = true
            · rw [if_pos hcont,
                if_pos (show (pyContains s1 s2 || pyContains s2 s1) = true
                  by rw [Bool.or_comm]; exact hcont)]
            · rw [if_neg hcont,
                if_neg (show ¬((pyContains s1 s2 || pyContains s2 s1) = true)
                  by rw [Bool.or_comm]; exact hcont)]

theorem zip_comm_map (l1 l2 : List PyStr) :
    l2.zip l1 = (l1.zip l2).map fun p => (p.2, p.1) := by
  induction l1 generalizing l2 with
  | nil => cases l2 <;> rfl
  | cons a as ih =>
    cases l2 with
    | nil => rfl
    | cons b bs =>
      simp only [List.zip_cons_cons, List.map_cons]
      rw [ih bs]

theorem smLoop_symm (l1 l2 : ℕ) (tot : ℚ) :
    ∀ (ps : List (PyStr × PyStr)) (i0 m0 : ℕ),
    smLoop l2 l1 tot (ps.map fun p => (p.2, p.1)) i0 m0 = smLoop l1 l2 tot ps i0 m0 := by
  intro ps
  induction ps with
  | nil =>
    intro i0 m0
    rfl
  | cons hd tl ih =>
    obtain ⟨a, b⟩ := hd
    intro i0 m0
    simp only [List.map_cons, smLoop]
    rw [are_segments_compatible_symm b a]
    by_cases hc : are_segments_compatible a b = true
    · rw [if_pos hc, if_pos hc]
      exact ih _ _
    · rw [if_neg hc, if_neg hc,
        show (pyIsdigit b && pyIsdigit a) = (pyIsdigit a && pyIsdigit b) from Bool.and_comm _ _]
      by_cases hdig : (pyIsdigit a && pyIsdigit b) = true
      · rw [if_pos hdig, if_pos hdig]
        by_cases hb : i0 = 0 ∨ i0 = l2 - 1 ∨ i0 = l1 - 1
        · rw [if_pos hb, if_pos (show i0 = 0 ∨ i0 = l1 - 1 ∨ i0 = l2 - 1 by tauto)]
        · rw [if_neg hb, if_neg (show ¬(i0 = 0 ∨ i0 = l1 - 1 ∨ i0 = l2 - 1) by tauto)]
          exact ih _ _
      · rw [if_neg hdig, if_neg hdig]
        exact ih _ _

theorem structured_match_symm (x y : PyStr) :
    structured_match x y = structured_match y x := by
  simp only [structured_match]
  rw [show ((extract_segments (some y)).isEmpty || (extract_segments (some x)).isEmpty) =
    ((extract_segments (some x)).isEmpty || (extract_segments (some y)).isEmpty)
    from Bool.or_comm _ _]
  by_cases hg : ((extract_segments (some x)).isEmpty || (extract_segments (some y)).isEmpty) = true
  · rw [if_pos hg, if_pos hg]
  · rw [if_neg hg, if_neg hg]
    have hnat : (((extract_segments (some y)).length : ℤ) -
        ((extract_segments (some x)).length : ℤ)).natAbs =
        (((extract_segments (some x)).length : ℤ) -
        ((extract_segments (some y)).length : ℤ)).natAbs := by
      omega
    rw [hnat]
    by_cases habs : (((extract_segments (some x)).length : ℤ) -
        ((extract_segments (some y)).length : ℤ)).natAbs > 2
    · rw [if_pos habs, if_pos habs]
    · rw [if_neg habs, if_neg habs,
        zip_comm_map (extract_segments (some x)) (extract_segments (some y)),
        smLoop_symm,
        Nat.max_comm (extract_segments (some y)).length (extract_segments (some x)).length]

/-- Specification table for the row implementation of
`levenshtein_distance`: `levTab s1 s2 i j` is the edit distance between the
prefixes `s1[:i]` and `s2[:j]`, by the standard Wagner-Fischer recurrence the
source's row loop computes. -/
def levTab (s1 s2 : PyStr) : ℕ → ℕ → ℕ
  | 0, j => j
  | i + 1, 0 => i + 1
  | i + 1, j + 1 =>
    min (levTab s1 s2 i (j + 1) + 1)
      (min (levTab s1 s2 (i + 1) j + 1)
        (levTab s1 s2 i j + if s1.getD i ' ' = s2.getD j ' ' then 0 else 1))

theorem levTab_symm (s1 s2 : PyStr) : ∀ i j, levTab s1 s2 i j = levTab s2 s1 j i := by
  intro i
  induction i with
  | zero =>
    intro j
    cases j <;> simp only [levTab]
  | succ i ihi =>
    intro j
    induction j with
    | zero => simp only [levTab]
    | succ j ihj =>
      have hc : (if s1.getD i ' ' = s2.getD j ' ' then 0 else 1) =
          (if s2.getD j ' ' = s1.getD i ' ' then 0 else 1) := by
        by_cases h : s1.getD i ' ' = s2.getD j ' '
        · rw [if_pos h, if_pos h.symm]
        · rw [if_neg h, if_neg (Ne.symm h)]
      simp only [levTab]
      rw [ihi (j + 1), ihi j, ihj, hc]
      omega

theorem getD_of_get? (l : PyStr) (n : ℕ) (a d : Char) (h : l.get? n = some a) :
    l.getD n d = a := by
  induction l generalizing n with
  | nil => simp [List.get?] at h
  | cons c cs ih =>
    match n with
    | 0 =>
      simp only [List.get?, Option.some.injEq] at h
      simp [List.getD, h]
    | n + 1 =>
      simp only [List.get?] at h
      simpa [List.getD] using ih n h

theorem levRowAux_spec (s1 s2 : PyStr) (k : ℕ) :
    ∀ (t : PyStr) (j0 : ℕ), s2.drop j0 = t →
    levRowAux (s1.getD k ' ') t
      ((List.range' j0 (t.length + 1)).map (levTab s1 s2 k))
      (levTab s1 s2 (k + 1) j0) =
    (List.range' (j0 + 1) t.length).map (levTab s1 s2 (k + 1)) := by
  intro t
  induction t with
  | nil =>
    intro j0 h
    rfl
  | cons c2 ts ih =>
    intro j0 hdrop
    have hc2 : s2.getD j0 ' ' = c2 := by
      apply getD_of_get?
      have := List.get?_drop s2 j0 0
      rw [hdrop] at this
      simpa using this.symm
    have hdrop' : s2.drop (j0 + 1) = ts := by
      rw [← List.drop_drop, hdrop]
      rfl
    simp only [List.length_cons]
    rw [List.range'_succ, List.map_cons]
    simp only [levRowAux]
    have hv : min (((List.range' (j0 + 1) (ts.length + 1)).map (levTab s1 s2 k)).headD 0 + 1)
        (min (levTab s1 s2 (k + 1) j0 + 1)
          (levTab s1 s2 k j0 + if s1.getD k ' ' = c2 then 0 else 1)) =
        levTab s1 s2 (k + 1) (j0 + 1) := by
      rw [List.range'_succ, List.map_cons, List.headD_cons, ← hc2]
      simp [levTab]
    rw [hv, ih (j0 + 1) hdrop', List.range'_succ, List.map_cons]

theorem levFold_spec (s1 s2 : PyStr) :
    ∀ (rest : PyStr) (k : ℕ), s1.drop k = rest →
    (List.enumFrom k rest).foldl
      (fun prev p => (p.1 + 1) :: levRowAux p.2 s2 prev (p.1 + 1))
      ((List.range' 0 (s2.length + 1)).map (levTab s1 s2 k)) =
    (List.range' 0 (s2.length + 1)).map (levTab s1 s2 (k + rest.length)) := by
  intro rest
  induction rest with
  | nil =>
    intro k h
    simp
  | cons c cs ih =>
    intro k hdrop
    have hc : s1.getD k ' ' = c := by
      apply getD_of_get?
      have := List.get?_drop s1 k 0
      rw [hdrop] at this
      simpa using this.symm
    have hdrop' : s1.drop (k + 1) = cs := by
      rw [← List.drop_drop, hdrop]
      rfl
    show (List.enumFrom (k + 1) cs).foldl _
        ((k + 1) :: levRowAux c s2
          ((List.range' 0 (s2.length + 1)).map (levTab s1 s2 k)) (k + 1)) = _
    have hrow : (k + 1) :: levRowAux c s2
        ((List.range' 0 (s2.length + 1)).map (levTab s1 s2 k)) (k + 1) =
        (List.range' 0 (s2.length + 1)).map (levTab s1 s2 (k + 1)) := by
      have hlast : levTab s1 s2 (k + 1) 0 = k + 1 := by simp [levTab]
      have hspec := levRowAux_spec s1 s2 k s2 0 (List.drop_zero s2)
      rw [hc, hlast] at hspec
      rw [hspec, List.range'_succ, List.map_cons, hlast]
    rw [hrow, ih (k + 1) hdrop']
    simp only [List.length_cons]
    rw [show k + 1 + cs.length = k + (cs.length + 1) by omega]

theorem levRows_spec (s1 s2 : PyStr) :
    levRows s1 s2 = (List.range (s2.length + 1)).map (levTab s1 s2 s1.length) := by
  have hid : ∀ l : List ℕ, l.map (levTab s1 s2 0) = l := by
    intro l
    induction l with
    | nil => rfl
    | cons a as ihl => simp [levTab, ihl]
  have hfold := levFold_spec s1 s2 s1 0 (List.drop_zero s1)
  rw [hid] at hfold
  unfold levRows
  rw [← List.enum_eq_zip_range, show List.enum s1 = List.enumFrom 0 s1 from rfl,
    List.range_eq_range' (s2.length + 1), hfold]
  simp

theorem levBase_eq (s1 s2 : PyStr) :
    levBase s1 s2 = levTab s1 s2 s1.length s2.length := by
  unfold levBase
  by_cases h : s2.length = 0
  · rw [if_pos h, h]
    cases hm : s1.length with
    | zero => simp [levTab]
    | succ m => simp [levTab]
  · rw [if_neg h, levRows_spec, List.range_succ, List.map_append]
    simp

theorem levenshtein_distance_symm (s1 s2 : PyStr) :
    levenshtein_distance s1 s2 = levenshtein_distance s2 s1 := by
  have hb : ∀ a b : PyStr, levBase a b = levBase b a := by
    intro a b
    rw [levBase_eq, levBase_eq, levTab_symm]
  unfold levenshtein_distance
  split_ifs <;> first | rfl | apply hb

theorem lcsufDP_symm (s1 s2 : PyStr) : ∀ i j, lcsufDP s1 s2 i j = lcsufDP s2 s1 j i := by
  intro i
  induction i with
  | zero =>
    intro j
    cases j <;> simp [lcsufDP]
  | succ i ih =>
    intro j
    cases j with
    | zero => simp [lcsufDP]
    | succ j =>
      simp only [lcsufDP]
      rw [ih j]
      exact if_congr eq_comm rfl rfl

theorem foldl_max_le_iff (l : List ℕ) :
    ∀ a b : ℕ, l.foldl max a ≤ b ↔ a ≤ b ∧ ∀ x ∈ l, x ≤ b := by
  induction l with
  | nil =>
    intro a b
    simp
  | cons c cs ih =>
    intro a b
    rw [List.foldl_cons, ih]
    constructor
    · rintro ⟨hmax, hall⟩
      refine ⟨le_trans (le_max_left _ _) hmax, fun x hx => ?_⟩
      rcases List.mem_cons.mp hx with rfl | hx'
      · exact le_trans (le_max_right _ _) hmax
      · exact hall x hx'
    · rintro ⟨ha, hall⟩
      exact ⟨max_le ha (hall c (List.mem_cons_self _ _)),
        fun x hx => hall x (List.mem_cons_of_mem _ hx)⟩

theorem le_foldl_max (l : List ℕ) (a : ℕ) :
    a ≤ l.foldl max a ∧ ∀ x ∈ l, x ≤ l.foldl max a :=
  (foldl_max_le_iff l a (l.foldl max a)).mp le_rfl

theorem longest_common_substring_length_symm (s1 s2 : PyStr) :
    longest_common_substring_length s1 s2 = longest_common_substring_length s2 s1 := by
  unfold longest_common_substring_length
  rw [show (s1.isEmpty || s2.isEmpty) = (s2.isEmpty || s1.isEmpty) from Bool.or_comm _ _]
  by_cases hg : (s2.isEmpty || s1.isEmpty) = true
  · rw [if_pos hg, if_pos hg]
  · rw [if_neg hg, if_neg hg]
    apply le_antisymm
    · rw [foldl_max_le_iff]
      refine ⟨Nat.zero_le _, fun x hx => ?_⟩
      simp only [List.mem_flatMap, List.mem_map, List.mem_range] at hx
      rcases hx with ⟨i, hi, j, hj, rfl⟩
      rw [lcsufDP_symm]
      apply (le_foldl_max _ 0).2
      simp only [List.mem_flatMap, List.mem_map, List.mem_range]
      exact ⟨j, hj, i, hi, rfl⟩
    · rw [foldl_max_le_iff]
      refine ⟨Nat.zero_le _, fun x hx => ?_⟩
      simp only [List.mem_flatMap, List.mem_map, List.mem_range] at hx
      rcases hx with ⟨i, hi, j, hj, rfl⟩
      rw [lcsufDP_symm]
      apply (le_foldl_max _ 0).2
      simp only [List.mem_flatMap, List.mem_map, List.mem_range]
      exact ⟨j, hj, i, hi, rfl⟩

/-- C2 counterexample: the similarity scorer is not symmetric. The sequence
ratio of difflib is order-dependent (its greedy longest-block search ties
differently after swapping), and the blended maximum inherits this:
`AB` vs `BACB` scores 2/3 one way and 1/2 the other. -/
theorem get_similarity_score_asymmetric :
    get_similarity_score (some ['A', 'B']) (some ['B', 'A', 'C', 'B']) ≠
      get_similarity_score (some ['B', 'A', 'C', 'B']) (some ['A', 'B']) ∧
    get_similarity_score (some ['A', 'B']) (some ['B', 'A', 'C', 'B']) = some (2 / 3) ∧
    get_similarity_score (some ['B', 'A', 'C', 'B']) (some ['A', 'B']) = some (1 / 2) := by
  refine ⟨?_, ?_, ?_⟩ <;> with_unfolding_all decide

/-- C2 amended: the scorer is symmetric on absent inputs, and on non-absent
inputs it is symmetric whenever the sequence-similarity ratio is itself
symmetric on the two normalized trimmed forms — every other component
(structured confidence, containment bonus, edit-distance score, longest
common substring score, and the cap) is symmetric unconditionally; the only
source of asymmetry is the order-dependent sequence ratio. -/
theorem get_similarity_score_symm :
    (∀ x : Option PyStr, get_similarity_score none x = get_similarity_score x none) ∧
    (∀ a b : PyStr,
      calculate_similarity_ratio (normalize_award_id (some (pyStrip a)))
          (normalize_award_id (some (pyStrip b))) =
        calculate_similarity_ratio (normalize_award_id (some (pyStrip b)))
          (normalize_award_id (some (pyStrip a))) →
      get_similarity_score (some a) (some b) = get_similarity_score (some b) (some a)) := by
  constructor
  · intro x
    cases x <;> rfl
  · intro a b hr
    simp only [get_similarity_score]
    by_cases h1 : pyStrip a = pyStrip b
    · rw [if_pos h1, if_pos h1.symm]
    · rw [if_neg h1, if_neg (Ne.symm h1)]
      by_cases h2 : normalize_award_id (some (pyStrip a)) = normalize_award_id (some (pyStrip b))
      · rw [if_pos h2, if_pos h2.symm]
      · rw [if_neg h2, if_neg (Ne.symm h2)]
        rw [structured_match_symm (pyStrip b) (pyStrip a)]
        by_cases hnum : ((extract_segments (some (pyStrip a))).filter pyIsdigit).length ≥ 2 ∧
            ((extract_segments (some (pyStrip b))).filter pyIsdigit).length ≥ 2
        · rw [if_pos hnum,
            if_pos (show ((extract_segments (some (pyStrip b))).filter pyIsdigit).length ≥ 2 ∧
              ((extract_segments (some (pyStrip a))).filter pyIsdigit).length ≥ 2
              from ⟨hnum.2, hnum.1⟩)]
        · rw [if_neg hnum,
            if_neg (show ¬(((extract_segments (some (pyStrip b))).filter pyIsdigit).length ≥ 2 ∧
              ((extract_segments (some (pyStrip a))).filter pyIsdigit).length ≥ 2)
              from fun h => hnum ⟨h.2, h.1⟩)]
          simp only [← hr,
            levenshtein_distance_symm (normalize_award_id (some (pyStrip b)))
              (normalize_award_id (some (pyStrip a))),
            longest_common_substring_length_symm (normalize_award_id (some (pyStrip b)))
              (normalize_award_id (some (pyStrip a))),
            Nat.max_comm (normalize_award_id (some (pyStrip b))).length
              (normalize_award_id (some (pyStrip a))).length,
            max_comm ((normalize_award_id (some (pyStrip b))).length : ℚ)
              ((normalize_award_id (some (pyStrip a))).length : ℚ),
            min_comm ((normalize_award_id (some (pyStrip b))).length : ℚ)
              ((normalize_award_id (some (pyStrip a))).length : ℚ),
            add_comm ((normalize_award_id (some (pyStrip b))).length : ℚ)
              ((normalize_award_id (some (pyStrip a))).length : ℚ),
            Bool.or_comm
              (pyContains (normalize_award_id (some (pyStrip a)))
                (normalize_award_id (some (pyStrip b))))
              (pyContains (normalize_award_id (some (pyStrip b)))
                (normalize_award_id (some (pyStrip a)))),
            show (¬List.isEmpty (normalize_award_id (some (pyStrip b))) = true ∧
                ¬List.isEmpty (normalize_award_id (some (pyStrip a))) = true) ↔
              (¬List.isEmpty (normalize_award_id (some (pyStrip a))) = true ∧
                ¬List.isEmpty (normalize_award_id (some (pyStrip b))) = true) from and_comm]

/-- Witness for C2's amended symmetry at `AB` / `CD`, whose ratio is 0 in both
orders. -/
theorem get_similarity_score_symm_witness :
    get_similarity_score (some ['A', 'B']) (some ['C', 'D']) =
      get_similarity_score (some ['C', 'D']) (some ['A', 'B']) :=
  get_similarity_score_symm.2 ['A', 'B'] ['C', 'D'] (by with_unfolding_all decide)
